import Mathlib

/-!
Verification development for the mini-agent-typescript repository.

This file contains a shallow embedding, in Lean 4, of the parts of the
repository that the frozen claims C1..C10 are about:

* the agent execution loop and its tool-call dispatch
  (src/src/agent/Agent.ts, Agent.run),
* the context-budget governor
  (src/src/agent/Agent.ts, Agent.summarizeMessagesIfNeeded),
* the Content-Length framed JSON-RPC stdio connection
  (src/unnamed/part_004, JsonRpcStdioConnection.onData / send) and the
  minimal MCP stdio client (src/src/tools/mcpLoader.ts,
  JsonRpcStdioClient.onData),
* the ACP turn loop with cancellation
  (src/unnamed/part_009, MiniMaxACPAgent.runTurn / cancel),
* the background shell supervisor
  (src/src/tools/bashTool.ts, BashTool / BashOutputTool / BashKillTool).

External effects are made explicit: the LLM backend is an oracle
function, a JavaScript exception thrown by a tool is an explicit
ExecOutcome.thrown value, asynchronous cancellation is a schedule of
booleans attached to the await points where it can be observed, and
JavaScript RegExp compilation is an abstract partial function.  Machine
strings are Lean Strings; byte streams are lists of natural numbers
(byte values).
-/

namespace MiniAgent

/-! ## Data model (src/src/schema.ts) -/

/-- Role of a message, from the Role union type in schema.ts. -/
inductive Role
  | system
  | user
  | assistant
  | tool
deriving DecidableEq

/-- A requested tool call (schema.ts ToolCall).  The JSON argument
object is opaque to the loop, so it is embedded as a String. -/
structure ToolCall where
  id : String
  name : String
  args : String
deriving DecidableEq

/-- A conversation turn (schema.ts Message).  Optional fields are
Options; an absent toolCalls array is none. -/
structure Message where
  role : Role
  content : String
  thinking : Option String := none
  toolCalls : Option (List ToolCall) := none
  toolCallId : Option String := none
  name : Option String := none
deriving DecidableEq

/-- Result of a tool execution (src/src/tools/Tool.ts ToolResult). -/
structure ToolResult where
  success : Bool
  content : String
  error : Option String := none
deriving DecidableEq

/-- Outcome of calling tool.execute: either a returned ToolResult or a
thrown JavaScript exception with its message. -/
inductive ExecOutcome
  | ok (r : ToolResult)
  | thrown (msg : String)
deriving DecidableEq

/-- A model backend response (schema.ts LLMResponse restricted to the
fields the loop reads). -/
structure LLMResp where
  content : String
  thinking : Option String := none
  toolCalls : Option (List ToolCall) := none
  usageTotalTokens : Option Nat := none
deriving DecidableEq

/-- Mutable per-agent state threaded through the loop
(Agent.ts fields messages / apiLastTotalTokens / skipNextTokenCheck).
The llmCalls and toolMsgCount fields are ghost counters recording how
many llm.generate calls the loop has issued and how many tool-result
messages it has appended; they do not influence any transition other
than selecting the next oracle response. -/
structure AgentState where
  messages : List Message
  apiLastTotalTokens : Nat
  skipNextTokenCheck : Bool
  llmCalls : Nat := 0
  toolMsgCount : Nat := 0
deriving DecidableEq

/-! ## Context budget governor (Agent.summarizeMessagesIfNeeded) -/

/-- Fixed marker prefixed to every synthetic summary message
(Agent.ts SUMMARY_MARKER). -/
def SUMMARY_MARKER : String := "[Assistant Execution Summary]"

/-- Character-list test that s starts with pre; this is the semantics
of the JavaScript String.prototype.startsWith call used on summary
messages. -/
def strStarts (s pre : String) : Bool :=
  s.data.take pre.data.length == pre.data

/-- Token estimate (Agent.estimateTokensFallback): sum of content,
thinking and stringified toolCalls lengths, divided by 2.5, floored.
JSON.stringify of the toolCalls array is external, so its length is an
oracle parameter. -/
def estimateTokensFallback (stringifyLen : List ToolCall → Nat)
    (msgs : List Message) : Nat :=
  (msgs.foldl
    (fun acc m =>
      acc + m.content.length
        + (match m.thinking with | some t => t.length | none => 0)
        + (match m.toolCalls with | some tcs => stringifyLen tcs | none => 0))
    0) * 2 / 5

/-- Predicate selecting user messages. -/
def isUserMsg (m : Message) : Bool := m.role == Role.user

/-- Structural reformulation of the user-index segmentation loop of
summarizeMessagesIfNeeded: walking the tail of the history (the part
after the leading message), it returns the run of messages before the
first user message together with the list of segments, each segment
being a user message paired with the assistant/tool run that follows
it up to the next user message.  This is exactly the decomposition the
source computes with userIdx / slice(cur+1, next). -/
def segSplit : List Message → List Message × List (Message × List Message)
  | [] => ([], [])
  | m :: tl =>
    let r := segSplit tl
    if isUserMsg m then ([], (m, r.1) :: r.2) else (m :: r.1, r.2)

/-- The synthetic summary message pushed for a compacted segment
(role assistant, content prefixed with the marker). -/
def mkSummaryMsg (s : String) : Message :=
  { role := .assistant, content := SUMMARY_MARKER ++ "\n\n" ++ s }

/-- Messages pushed for one segment of execution messages: an empty
segment pushes nothing; a segment that is exactly one assistant
message already starting with the summary marker is carried through
unchanged; otherwise a summary is requested from the backend oracle
and pushed when non-empty (createSummary returning the empty string
pushes nothing, as in the source). -/
def segmentOut (summarizer : List Message → Nat → String) (roundNum : Nat)
    (exec : List Message) : List Message :=
  match exec with
  | [] => []
  | [m] =>
    if m.role == Role.assistant && strStarts m.content SUMMARY_MARKER then [m]
    else
      let s := summarizer [m] roundNum
      if s = "" then [] else [mkSummaryMsg s]
  | _ =>
    let s := summarizer exec roundNum
    if s = "" then [] else [mkSummaryMsg s]

/-- Rebuilds the compacted message list from the segments, numbering
rounds from the given index as the source numbers them i+1. -/
def joinSegs (summarizer : List Message → Nat → String) :
    Nat → List (Message × List Message) → List Message
  | _, [] => []
  | n, (u, exec) :: tl =>
    (u :: segmentOut summarizer n exec) ++ joinSegs summarizer (n + 1) tl

/-- The context budget governor (Agent.summarizeMessagesIfNeeded).
The summarizer oracle stands for the dedicated llm.generate call made
by createSummary; it is a function of the segment and round number
because the summary prompt is computed from exactly those. -/
def summarizeMessagesIfNeeded (stringifyLen : List ToolCall → Nat)
    (summarizer : List Message → Nat → String) (tokenLimit : Nat)
    (st : AgentState) : AgentState :=
  if st.skipNextTokenCheck then { st with skipNextTokenCheck := false }
  else if estimateTokensFallback stringifyLen st.messages > tokenLimit
      ∨ st.apiLastTotalTokens > tokenLimit then
    match st.messages with
    | [] => st
    | m0 :: rest =>
      match (segSplit rest).2 with
      | [] => st
      | seg0 :: segs =>
        { st with
          messages := m0 :: joinSegs summarizer 1 (seg0 :: segs),
          skipNextTokenCheck := true }
  else st

/-! ## Execution loop (Agent.run) -/

/-- The assistant message appended for a backend response
(content, thinking and requested calls, before any tool runs). -/
def assistantMsgOf (r : LLMResp) : Message :=
  { role := .assistant, content := r.content, thinking := r.thinking,
    toolCalls := r.toolCalls }

/-- The tool-result message appended for one requested call, covering
all three paths of the source loop body: unknown tool name, normal
execution, and a thrown exception converted to a failed result. -/
def toolResultMsg (tools : String → Option (String → ExecOutcome))
    (c : ToolCall) : Message :=
  match tools c.name with
  | none =>
    { role := .tool, content := "Error: Unknown tool: " ++ c.name,
      toolCallId := some c.id, name := some c.name }
  | some f =>
    let r : ToolResult :=
      match f c.args with
      | .ok r => r
      | .thrown m =>
        { success := false, content := "",
          error := some ("Tool execution failed: " ++ m) }
    { role := .tool,
      content :=
        if r.success then r.content
        else "Error: " ++ r.error.getD "Tool execution failed",
      toolCallId := some c.id, name := some c.name }

/-- The inner for-loop of Agent.run over the requested calls: each call
appends exactly one tool-result message to the history. -/
def processToolCalls (tools : String → Option (String → ExecOutcome)) :
    List ToolCall → AgentState → AgentState
  | [], st => st
  | c :: rest, st =>
    processToolCalls tools rest
      { st with
        messages := st.messages ++ [toolResultMsg tools c],
        toolMsgCount := st.toolMsgCount + 1 }

/-- Environment of a run: the backend oracle (indexed by how many
generate calls the loop has made), the registered tools, and the
configuration. -/
structure RunEnv where
  llmAt : Nat → LLMResp
  tools : String → Option (String → ExecOutcome)
  stringifyLen : List ToolCall → Nat
  summarizer : List Message → Nat → String
  tokenLimit : Nat
  maxSteps : Nat

/-- The terminal value returned when the step budget is exhausted
(Agent.run returns this fixed string built from maxSteps). -/
def notCompletedText (maxSteps : Nat) : String :=
  "Task couldn\x27t be completed after " ++ toString maxSteps ++ " steps."

/-- One pass of Agent.run with the remaining step budget as fuel:
compaction check, backend call, assistant append, then either a final
answer (no requested calls) or tool dispatch and the next iteration. -/
def runLoop (env : RunEnv) : Nat → AgentState → String × AgentState
  | 0, st => (notCompletedText env.maxSteps, st)
  | fuel + 1, st =>
    let st1 := summarizeMessagesIfNeeded env.stringifyLen env.summarizer
      env.tokenLimit st
    let resp := env.llmAt st1.llmCalls
    let st2 : AgentState :=
      { st1 with
        apiLastTotalTokens := resp.usageTotalTokens.getD st1.apiLastTotalTokens,
        llmCalls := st1.llmCalls + 1,
        messages := st1.messages ++ [assistantMsgOf resp] }
    match resp.toolCalls with
    | none => (resp.content, st2)
    | some [] => (resp.content, st2)
    | some (c :: cs) => runLoop env fuel (processToolCalls env.tools (c :: cs) st2)

/-- Agent.run: at most maxSteps iterations. -/
def run (env : RunEnv) (st : AgentState) : String × AgentState :=
  runLoop env env.maxSteps st

/-! ## Background shell supervisor (src/src/tools/bashTool.ts) -/

/-- Status of a background job (BackgroundShell.status). -/
inductive ShellStatus
  | running
  | completed
  | failed
  | terminated
deriving DecidableEq

/-- State of one background job (bashTool.ts BackgroundShell). -/
structure BgShell where
  bashId : String
  command : String
  status : ShellStatus
  exitCode : Option Int
  outputLines : List String
  lastReadIndex : Nat
deriving DecidableEq

/-- Fresh job record as created by BashTool.execute in background
mode. -/
def newBgShell (id cmd : String) : BgShell :=
  { bashId := id, command := cmd, status := .running, exitCode := none,
    outputLines := [], lastReadIndex := 0 }

/-- Character-level split of a chunk at the separators matched by the
JavaScript regex split on backslash-r-optional backslash-n: a CRLF pair
or a lone LF ends a piece; a lone CR does not. -/
def splitLinesChars : List Char → List (List Char)
  | [] => [[]]
  | '\r' :: '\n' :: rest => [] :: splitLinesChars rest
  | '\n' :: rest => [] :: splitLinesChars rest
  | c :: rest =>
    match splitLinesChars rest with
    | h :: t => (c :: h) :: t
    | [] => [[c]]

/-- bashTool.ts splitLines: decode the chunk, split on line endings,
drop empty pieces. -/
def splitLines (s : String) : List String :=
  ((splitLinesChars s.data).filter (fun l => l ≠ [])).map String.mk

/-- Output handler attached to the merged stdout/stderr streams: the
decoded lines are appended to the job buffer. -/
def onOutputData (shell : BgShell) (chunk : String) : BgShell :=
  { shell with outputLines := shell.outputLines ++ splitLines chunk }

/-- Close handler: records the exit code and resolves the status
(code 0 means completed, anything else including null means failed). -/
def onCloseEvent (shell : BgShell) (code : Option Int) : BgShell :=
  { shell with exitCode := code,
               status := if code = some 0 then .completed else .failed }

/-- ASCII whitespace test used for the JavaScript String.prototype.trim
semantics on the outputs this code produces. -/
def isWSChar (c : Char) : Bool :=
  c == ' ' || c == '\t' || c == '\n' || c == '\r'

/-- Whitespace trim at both ends (the .trim() call in
formatBashOutput). -/
def trimStr (s : String) : String :=
  String.mk (((s.data.dropWhile isWSChar).reverse.dropWhile isWSChar).reverse)

/-- Array.prototype.join with a newline separator. -/
def joinLines : List String → String
  | [] => ""
  | [x] => x
  | x :: y :: t => x ++ "\n" ++ joinLines (y :: t)

/-- bashTool.ts formatBashOutput: concatenates the stdout, stderr,
bash id and nonzero exit-code sections, trims, and falls back to the
fixed no-output text. -/
def formatBashOutput (stdout stderr : String) (exitCode : Int)
    (bashId : Option String) : String :=
  let s1 := if stdout ≠ "" then stdout else ""
  let s2 := s1 ++ (if stderr ≠ "" then "\n[stderr]:\n" ++ stderr else "")
  let s3 := s2 ++
    (match bashId with
     | some b => if b ≠ "" then "\n[bash_id]:\n" ++ b else ""
     | none => "")
  let s4 := s3 ++
    (if exitCode ≠ 0 then "\n[exit_code]:\n" ++ toString exitCode else "")
  if trimStr s4 = "" then "(no output)" else trimStr s4

/-- Result of one BashOutputTool.execute call on an existing job. -/
structure PollOut where
  shell : BgShell
  newLines : List String
  content : String
  success : Bool
deriving DecidableEq

/-- Core of BashOutputTool.execute for an existing job: take the lines
after the cursor, advance the cursor, then apply the optional regex
filter.  RegExp compilation is external, so it is an abstract partial
function; a filter string it fails on (the catch branch) leaves the
lines unfiltered.  The cursor advance happens before filtering, so
unmatched lines are consumed. -/
def pollNewOutput (compileRegex : String → Option (String → Bool))
    (filterStr : Option String) (shell : BgShell) : PollOut :=
  let newLines := shell.outputLines.drop shell.lastReadIndex
  let shell2 := { shell with lastReadIndex := shell.outputLines.length }
  let filtered :=
    match filterStr with
    | none => newLines
    | some f =>
      match compileRegex f with
      | some re => newLines.filter re
      | none => newLines
  { shell := shell2, newLines := filtered,
    content := formatBashOutput (joinLines filtered) ""
      (shell.exitCode.getD 0) (some shell.bashId),
    success := true }

/-- Actions the kill path performs on the process, in order. -/
inductive KillAct
  | sigterm
  | waitMs (ms : Nat)
  | sigkill
deriving DecidableEq

/-- Result of one BashKillTool.execute call on an existing job. -/
structure KillOut where
  shell : BgShell
  remaining : List String
  acts : List KillAct
  removed : Bool
  content : String
  success : Bool
deriving DecidableEq

/-- Core of BashKillTool.execute for an existing job: consume the
output accumulated since the last poll, send SIGTERM, sleep 500 ms,
send SIGKILL only if the exit code is still unresolved after the grace
period, mark the job terminated, and remove it from the manager.  The
exitCodeAfterGrace parameter is the value the close handler has given
shell.exitCode by the time the grace period ends (none when the
process has not exited). -/
def terminateShell (shell : BgShell) (exitCodeAfterGrace : Option Int) :
    KillOut :=
  let remaining := shell.outputLines.drop shell.lastReadIndex
  let shell2 := { shell with lastReadIndex := shell.outputLines.length }
  let acts := [KillAct.sigterm, KillAct.waitMs 500] ++
    (if exitCodeAfterGrace = none then [KillAct.sigkill] else [])
  let shell3 := { shell2 with status := ShellStatus.terminated,
                              exitCode := exitCodeAfterGrace }
  { shell := shell3, remaining := remaining, acts := acts, removed := true,
    content := formatBashOutput (joinLines remaining) ""
      (exitCodeAfterGrace.getD 0) (some shell.bashId),
    success := true }

/-! ## ACP turn loop (src/unnamed/part_009, MiniMaxACPAgent.runTurn) -/

/-- Environment of an ACP turn.  The llm oracle may fail (a thrown
generate error is caught and turns into the refusal stop reason).
cancelDuringCall n is true when a cancel notification is processed by
the event loop during the awaits (sessionUpdate sends and
tool.execute) of the n-th processed tool call of this turn; the source
reads state.cancelled only at the top of each iteration, never inside
the batch loop. -/
structure TurnEnv where
  llm : Nat → Except String LLMResp
  tools : String → Option (String → ExecOutcome)
  cancelDuringCall : Nat → Bool
  maxSteps : Nat

/-- Per-session state during a turn: the history, the cancelled mark
set by MiniMaxACPAgent.cancel, and ghost counters of generate calls
and processed tool calls. -/
structure TurnState where
  messages : List Message
  cancelled : Bool
  llmCalls : Nat := 0
  callsProcessed : Nat := 0
deriving DecidableEq

/-- Text of a tool result as the ACP loop builds it (unknown tool,
success, failure and thrown cases). -/
def acpToolText (tools : String → Option (String → ExecOutcome))
    (c : ToolCall) : String :=
  match tools c.name with
  | none => "❌ Unknown tool: " ++ c.name
  | some f =>
    match f c.args with
    | .ok r =>
      if r.success then "✅ " ++ r.content
      else "❌ " ++ r.error.getD "Tool execution failed"
    | .thrown m => "❌ Tool error: " ++ m

/-- The for-loop over a batch of requested calls in runTurn: every call
is processed (one tool message appended), and a cancel notification
arriving during a call's awaits sets the cancelled mark — which this
loop never reads. -/
def processCallsACP (env : TurnEnv) :
    List ToolCall → TurnState → TurnState
  | [], st => st
  | c :: rest, st =>
    processCallsACP env rest
      { st with
        messages := st.messages ++
          [{ role := .tool, content := acpToolText env.tools c,
             toolCallId := some c.id, name := some c.name }],
        callsProcessed := st.callsProcessed + 1,
        cancelled := st.cancelled || env.cancelDuringCall st.callsProcessed }

/-- MiniMaxACPAgent.runTurn with the remaining step budget as fuel:
the cancelled mark is checked at the top of each iteration, before the
generate call; a turn that exhausts the budget returns the
max_turn_requests stop reason. -/
def runTurnLoop (env : TurnEnv) : Nat → TurnState → String × TurnState
  | 0, st => ("max_turn_requests", st)
  | fuel + 1, st =>
    if st.cancelled then ("cancelled", st)
    else
      match env.llm st.llmCalls with
      | .error _ => ("refusal", { st with llmCalls := st.llmCalls + 1 })
      | .ok resp =>
        let st1 : TurnState :=
          { st with llmCalls := st.llmCalls + 1,
                    messages := st.messages ++ [assistantMsgOf resp] }
        match resp.toolCalls with
        | none => ("end_turn", st1)
        | some [] => ("end_turn", st1)
        | some (c :: cs) =>
          runTurnLoop env fuel (processCallsACP env (c :: cs) st1)

/-- runTurn entry point: at most maxSteps iterations. -/
def runTurn (env : TurnEnv) (st : TurnState) : String × TurnState :=
  runTurnLoop env env.maxSteps st

/-! ## Content-Length framing (src/unnamed/part_004 and
src/src/tools/mcpLoader.ts)

Byte streams are lists of natural numbers (byte values).  The sender
side is JsonRpcStdioConnection.send; the receive side is the onData
state machine shared, with small differences, by
JsonRpcStdioConnection (duplex connection with buffer ceiling and
length validation) and JsonRpcStdioClient (minimal MCP client with
neither). -/

/-- Payload ceiling of the duplex connection
(part_004 MAX_CONTENT_LENGTH_BYTES, 10 MB). -/
def MAX_CONTENT_LENGTH_BYTES : Nat := 10 * 1024 * 1024

/-- Inbound buffer ceiling of the duplex connection
(part_004 MAX_BUFFER_BYTES, 20 MB). -/
def MAX_BUFFER_BYTES : Nat := 20 * 1024 * 1024

/-- Byte values of the header text Content-Length: without the
trailing space (C o n t e n t - L e n g t h :). -/
def clHeadBytes : List Nat :=
  [67, 111, 110, 116, 101, 110, 116, 45, 76, 101, 110, 103, 116, 104, 58]

/-- Lower-cased byte values of the same header text, the pattern the
case-insensitive regex looks for. -/
def clPatBytes : List Nat :=
  [99, 111, 110, 116, 101, 110, 116, 45, 108, 101, 110, 103, 116, 104, 58]

/-- ASCII lower-casing of one byte. -/
def toLowerB (b : Nat) : Nat := if 65 ≤ b ∧ b ≤ 90 then b + 32 else b

/-- Decimal digit byte test (the regex d class). -/
def isDigitB (b : Nat) : Bool := 48 ≤ b && b ≤ 57

/-- Whitespace byte test (the regex s class restricted to the ASCII
whitespace that can occur here). -/
def isSpaceB (b : Nat) : Bool :=
  b == 32 || b == 9 || b == 10 || b == 13 || b == 11 || b == 12

/-- Value of a most-significant-first list of decimal digit bytes, as
the JavaScript Number conversion computes it on the captured digit
group. -/
def digitsVal (ds : List Nat) : Nat :=
  ds.foldl (fun acc b => acc * 10 + (b - 48)) 0

/-- Least-significant-first decimal digit bytes of n, with enough fuel
(structural recursion so that concrete frames evaluate in the
kernel). -/
def decBytesAux : Nat → Nat → List Nat
  | 0, _ => []
  | _ + 1, 0 => []
  | fuel + 1, n + 1 => ((n + 1) % 10 + 48) :: decBytesAux fuel ((n + 1) / 10)

/-- Decimal digit bytes of n, most significant first, nonempty
(the byte rendering of the template literal writing the length). -/
def decBytes (n : Nat) : List Nat :=
  if n = 0 then [48] else (decBytesAux n n).reverse

/-- Byte index of the first CRLFCRLF in the buffer
(Buffer.prototype.indexOf of the four-byte separator). -/
def find4 : List Nat → Option Nat
  | [] => none
  | b :: tl =>
    if b = 13 ∧ tl.take 3 = [10, 13, 10] then some 0
    else (find4 tl).map (fun i => i + 1)

/-- First match of the case-insensitive content-length regex in the
header bytes: at each start position, the fifteen pattern bytes, then
optional whitespace, then at least one digit; the captured digits give
the length. -/
def findCL : List Nat → Option Nat
  | [] => none
  | b :: tl =>
    if ((b :: tl).take 15).map toLowerB = clPatBytes then
      let ds := (((b :: tl).drop 15).dropWhile isSpaceB).takeWhile isDigitB
      if ds = [] then findCL tl else some (digitsVal ds)
    else findCL tl

/-- Header text bytes written by the sender for a payload of n bytes:
the Content-Length label, one space, then the decimal length. -/
def frameHeader (n : Nat) : List Nat :=
  clHeadBytes ++ [32] ++ decBytes n

/-- Sender side (JsonRpcStdioConnection.send): the header line, the
blank line (CRLF CRLF), then exactly the payload bytes. -/
def encodeFrame (body : List Nat) : List Nat :=
  frameHeader body.length ++ 13 :: 10 :: 13 :: 10 :: body

/-- Concatenated encoding of a sequence of payloads, the outbound byte
stream for them. -/
def frameStream (bodies : List (List Nat)) : List Nat :=
  (bodies.map encodeFrame).flatten

/-- State of the duplex connection receive side: the inbound buffer,
the payloads extracted so far (in order, at the point where the source
hands the body to JSON.parse and dispatch), and the error messages
reported through onError. -/
structure ConnState where
  buffer : List Nat
  received : List (List Nat)
  errors : List String
deriving DecidableEq

/-- The while-true frame extraction loop of
JsonRpcStdioConnection.onData, with fuel (each continuing iteration
consumes at least the four separator bytes, so any fuel above the
buffer length is enough): find the header terminator, parse the
length, validate it, wait for the full body, extract it, repeat. -/
def drainConn : Nat → ConnState → ConnState
  | 0, st => st
  | fuel + 1, st =>
    match find4 st.buffer with
    | none => st
    | some headerEnd =>
      match findCL (st.buffer.take headerEnd) with
      | none =>
        drainConn fuel
          { st with buffer := st.buffer.drop (headerEnd + 4) }
      | some len =>
        if len > MAX_CONTENT_LENGTH_BYTES then
          drainConn fuel
            { st with buffer := st.buffer.drop (headerEnd + 4),
                      errors := st.errors ++ ["Invalid Content-Length"] }
        else if st.buffer.length < headerEnd + 4 + len then st
        else
          drainConn fuel
            { st with
              buffer := st.buffer.drop (headerEnd + 4 + len),
              received := st.received ++
                [(st.buffer.drop (headerEnd + 4)).take len] }

/-- JsonRpcStdioConnection.onData: append the chunk, enforce the
buffer ceiling (discard and report on overflow), then extract every
complete frame. -/
def connOnData (st : ConnState) (chunk : List Nat) : ConnState :=
  let buf := st.buffer ++ chunk
  if buf.length > MAX_BUFFER_BYTES then
    { st with buffer := [],
              errors := st.errors ++ ["JSON-RPC buffer exceeded"] }
  else drainConn (buf.length + 1) { st with buffer := buf }

/-- Feeding a sequence of delivery chunks to the connection. -/
def connFeed (st : ConnState) (chunks : List (List Nat)) : ConnState :=
  chunks.foldl connOnData st

/-- State of the minimal MCP client receive side
(JsonRpcStdioClient): a buffer and the extracted payloads.  This
parser has no buffer ceiling and no length validation. -/
structure ClientState where
  buffer : List Nat
  received : List (List Nat)
deriving DecidableEq

/-- The frame extraction loop of JsonRpcStdioClient.onData. -/
def drainClient : Nat → ClientState → ClientState
  | 0, st => st
  | fuel + 1, st =>
    match find4 st.buffer with
    | none => st
    | some headerEnd =>
      match findCL (st.buffer.take headerEnd) with
      | none =>
        drainClient fuel
          { st with buffer := st.buffer.drop (headerEnd + 4) }
      | some len =>
        if st.buffer.length < headerEnd + 4 + len then st
        else
          drainClient fuel
            { st with
              buffer := st.buffer.drop (headerEnd + 4 + len),
              received := st.received ++
                [(st.buffer.drop (headerEnd + 4)).take len] }

/-- JsonRpcStdioClient.onData: append the chunk (no ceiling check) and
extract every complete frame. -/
def clientOnData (st : ClientState) (chunk : List Nat) : ClientState :=
  let buf := st.buffer ++ chunk
  drainClient (buf.length + 1) { st with buffer := buf }

/-! ## Concrete instances used by witnesses and counterexamples -/

/-- A state whose skipNextTokenCheck flag is set while the history is
over the (zero) token budget and not yet in compacted form; reachable
shape for the summarize function, used to refute unconditional
idempotence. -/
def c5State : AgentState :=
  { messages :=
      [{ role := .system, content := "sss" },
       { role := .user, content := "uuu" },
       { role := .assistant, content := "aaa" }],
    apiLastTotalTokens := 0, skipNextTokenCheck := true }

/-- Background job scenario: the job record after the process printed
one line a, one line b, and exited with code 0. -/
def c8Shell : BgShell :=
  onCloseEvent
    (onOutputData (onOutputData (newBgShell "abc12345" "print a b") "a\n") "b\n")
    (some 0)

/-- First incremental poll of the scenario job (no filter). -/
def c8Poll1 : PollOut := pollNewOutput (fun _ => none) none c8Shell

/-- Second immediate poll, with no output in between. -/
def c8Poll2 : PollOut := pollNewOutput (fun _ => none) none c8Poll1.shell

/-- ACP environment for the mid-batch cancellation scenario: the
backend always requests two tool calls, both resolving to a registered
tool, and a cancel notification is processed during the handling of
the first tool call of the turn. -/
def c7Env : TurnEnv :=
  { llm := fun _ => .ok
      { content := "",
        toolCalls := some [⟨"c1", "t", ""⟩, ⟨"c2", "t", ""⟩] },
    tools := fun n =>
      if n = "t" then some (fun _ => .ok ⟨true, "ok", none⟩) else none,
    cancelDuringCall := fun n => n == 0,
    maxSteps := 3 }

/-- Fresh session state for the cancellation scenario. -/
def c7State : TurnState := { messages := [], cancelled := false }

/-- A chunk one byte over the connection buffer ceiling, containing no
header terminator. -/
def hugeChunk : List Nat := List.replicate (MAX_BUFFER_BYTES + 1) 97

/-- Leftover-buffer invariant of the framed parser: the buffer is
either empty or a proper front part of the encoding of the next
pending message. -/
def FrameStuck (q : List Nat) (ms : List (List Nat)) : Prop :=
  q = [] ∨ ∃ m tl k, ms = m :: tl ∧ k < (encodeFrame m).length
    ∧ q = (encodeFrame m).take k

/-- One-byte serializer for the round-trip witness. -/
def c4Ser : Nat → List Nat := fun n => [n]

/-- Matching deserializer for the round-trip witness. -/
def c4Deser : List Nat → Option Nat :=
  fun l => match l with | [b] => some b | _ => none

/-- Two messages for the round-trip witness. -/
def c4Msgs : List Nat := [7, 8]

/-- Their encoded byte stream. -/
def c4Stream : List Nat := frameStream (c4Msgs.map c4Ser)

/-- A delivery that splits the stream in the middle of the first
header. -/
def c4Chunks : List (List Nat) := [c4Stream.take 5, c4Stream.drop 5]

/-- Backend stub that always requests exactly one tool call, with a
registered tool, a large token budget and a step budget of three. -/
def c3Env : RunEnv :=
  { llmAt := fun _ =>
      { content := "working", toolCalls := some [⟨"i", "t", ""⟩] },
    tools := fun _ => some (fun _ => .ok ⟨true, "", none⟩),
    stringifyLen := fun _ => 0,
    summarizer := fun _ _ => "",
    tokenLimit := 1000000,
    maxSteps := 3 }

/-- Fresh agent state for the step-budget scenario. -/
def c3State : AgentState :=
  { messages := [{ role := .system, content := "s" }],
    apiLastTotalTokens := 0, skipNextTokenCheck := false }

/-- Job with one line already delivered and one pending, for the
invalid-filter witness. -/
def c10Shell : BgShell :=
  { bashId := "x1", command := "c", status := .running, exitCode := none,
    outputLines := ["p", "q"], lastReadIndex := 1 }

end MiniAgent

/-! # Theorems -/

namespace MiniAgent

/-! ## List helpers -/

theorem segmentOut_filter_user (f : List Message → Nat → String)
    (n : Nat) (exec : List Message) :
    (segmentOut f n exec).filter isUserMsg = [] := by
  match exec with
  | [] => rfl
  | [m] =>
    by_cases hg : (m.role == Role.assistant && strStarts m.content SUMMARY_MARKER) = true
    · have hand := (Bool.and_eq_true _ _).mp hg
      have hrole : m.role = Role.assistant := beq_iff_eq.mp hand.1
      have hstart := hand.2
      simp [segmentOut, hrole, hstart, isUserMsg]
    · rw [Bool.not_eq_true] at hg
      by_cases hs : f [m] n = ""
      · simp [segmentOut, hg, hs]
      · simp [segmentOut, hg, hs, mkSummaryMsg, isUserMsg]
  | m1 :: m2 :: t =>
    by_cases hs : f (m1 :: m2 :: t) n = ""
    · simp [segmentOut, hs]
    · simp [segmentOut, hs, mkSummaryMsg, isUserMsg]

theorem joinSegs_filter_user (f : List Message → Nat → String) :
    ∀ (l : List Message) (n : Nat),
      (joinSegs f n (segSplit l).2).filter isUserMsg = l.filter isUserMsg := by
  intro l
  induction l with
  | nil => intro n; rfl
  | cons m tl ih =>
    intro n
    by_cases hm : isUserMsg m
    · simp only [segSplit, hm, if_pos]
      simp only [joinSegs, List.filter_append, List.filter_cons, hm,
        segmentOut_filter_user, List.nil_append]
      simp [ih (n + 1)]
    · simp only [segSplit, hm, if_neg, Bool.false_eq_true, not_false_eq_true]
      simp only [List.filter_cons, hm]
      simp [ih n]

/-- Full description of the tool-dispatch loop as an append of one
result message per call, with all other state fields unchanged except
the ghost counter. -/
theorem processToolCalls_spec
    (tools : String → Option (String → ExecOutcome)) :
    ∀ (calls : List ToolCall) (st : AgentState),
      processToolCalls tools calls st =
        { st with
          messages := st.messages ++ calls.map (toolResultMsg tools),
          toolMsgCount := st.toolMsgCount + calls.length } := by
  intro calls
  induction calls with
  | nil => intro st; simp [processToolCalls]
  | cons c rest ih =>
    intro st
    simp only [processToolCalls, ih, List.map_cons, List.length_cons]
    congr 1
    · simp
    · omega

/-! ## Claim C1 -/

/-- Claim C1: for an assistant turn requesting a list of tool calls,
the loop appends exactly one tool-result turn per call, in request
order, each carrying the corresponding call identifier in its
toolCallId linkage key; an unresolved tool name yields a synthetic
failed tool-result turn with that id instead of aborting, and a
thrown execution fault is converted into a failed tool-result. -/
theorem c1_tool_result_linkage
    (tools : String → Option (String → ExecOutcome))
    (calls : List ToolCall) (st : AgentState) :
    ((processToolCalls tools calls st).messages =
        st.messages ++ calls.map (toolResultMsg tools))
    ∧ (∀ c ∈ calls, (toolResultMsg tools c).role = Role.tool
        ∧ (toolResultMsg tools c).toolCallId = some c.id)
    ∧ (∀ c ∈ calls, tools c.name = none →
        (toolResultMsg tools c).content = "Error: Unknown tool: " ++ c.name)
    ∧ (∀ c ∈ calls, ∀ g m, tools c.name = some g → g c.args = .thrown m →
        (toolResultMsg tools c).content =
          "Error: " ++ ("Tool execution failed: " ++ m)) := by
  refine ⟨?_, ?_, ?_, ?_⟩
  · rw [processToolCalls_spec]
  · intro c _
    cases h : tools c.name <;> simp [toolResultMsg, h]
  · intro c _ h
    simp [toolResultMsg, h]
  · intro c _ g m hg hm
    simp [toolResultMsg, hg, hm]

/-- Witness for C1 at a concrete tool table, call list and state:
two calls, the first resolving to a succeeding tool and the second to
no tool, produce exactly two linked tool-result turns. -/
theorem c1_tool_result_linkage_witness :
    ((processToolCalls
        (fun n => if n = "t" then some (fun _ => .ok ⟨true, "ok", none⟩) else none)
        [⟨"id1", "t", "a"⟩, ⟨"id2", "missing", "a"⟩]
        { messages := [], apiLastTotalTokens := 0,
          skipNextTokenCheck := false }).messages =
      [] ++ [⟨"id1", "t", "a"⟩, ⟨"id2", "missing", "a"⟩].map
        (toolResultMsg
          (fun n => if n = "t" then some (fun _ => .ok ⟨true, "ok", none⟩) else none)))
    ∧ (toolResultMsg
        (fun n => if n = "t" then some (fun _ => .ok ⟨true, "ok", none⟩) else none)
        ⟨"id2", "missing", "a"⟩).content = "Error: Unknown tool: " ++ "missing" := by
  refine ⟨(c1_tool_result_linkage _ _ _).1, ?_⟩
  exact (c1_tool_result_linkage
    (fun n => if n = "t" then some (fun _ => .ok ⟨true, "ok", none⟩) else none)
    [⟨"id1", "t", "a"⟩, ⟨"id2", "missing", "a"⟩]
    { messages := [], apiLastTotalTokens := 0,
      skipNextTokenCheck := false }).2.2.1
    ⟨"id2", "missing", "a"⟩ (by simp) (by simp)

/-! ## Claim C2 -/

/-- Claim C2: the compaction operation preserves the leading turn
(the system turn) and the full subsequence of user turns, unmodified
and in their original relative order, for every starting state. -/
theorem c2_compaction_preserves_system_and_users
    (stringifyLen : List ToolCall → Nat)
    (summarizer : List Message → Nat → String) (tokenLimit : Nat)
    (st : AgentState) :
    ((summarizeMessagesIfNeeded stringifyLen summarizer tokenLimit st).messages.filter
        isUserMsg = st.messages.filter isUserMsg)
    ∧ ((summarizeMessagesIfNeeded stringifyLen summarizer tokenLimit st).messages.head?
        = st.messages.head?) := by
  obtain ⟨msgs, api, skip, lc, tc⟩ := st
  unfold summarizeMessagesIfNeeded
  cases skip with
  | true => simp
  | false =>
    by_cases htrig : estimateTokensFallback stringifyLen msgs > tokenLimit
        ∨ api > tokenLimit
    · cases msgs with
      | nil => simp [htrig]
      | cons m0 rest =>
        cases hseg : (segSplit rest).2 with
        | nil => simp [htrig, hseg]
        | cons seg0 segs =>
          have h2 := joinSegs_filter_user summarizer rest 1
          rw [hseg] at h2
          simp only [htrig, if_true, hseg, Bool.false_eq_true, if_false]
          constructor
          · simp only [List.filter_cons]
            by_cases hm0 : isUserMsg m0 <;> simp [hm0, h2]
          · simp
    · simp [htrig]

/-! ## Claim C5 -/

/-- Claim C5 (amended): compaction invoked twice in succession with no
turns appended in between yields the same history both times provided
the skipNextCheck flag is clear at the first invocation (so that any
compaction happens at the first invocation); a call finding the flag
set only clears it and changes nothing else; and a segment that is
already exactly one marker-prefixed summary turn is carried through
unchanged by the per-segment summarization. -/
theorem c5_amended_conditional_idempotence
    (stringifyLen : List ToolCall → Nat)
    (summarizer : List Message → Nat → String) (tokenLimit : Nat)
    (st : AgentState) :
    (st.skipNextTokenCheck = false →
      (summarizeMessagesIfNeeded stringifyLen summarizer tokenLimit
        (summarizeMessagesIfNeeded stringifyLen summarizer tokenLimit st)).messages
        = (summarizeMessagesIfNeeded stringifyLen summarizer tokenLimit st).messages)
    ∧ (st.skipNextTokenCheck = true →
        summarizeMessagesIfNeeded stringifyLen summarizer tokenLimit st
          = { st with skipNextTokenCheck := false })
    ∧ (∀ m n, m.role = Role.assistant → strStarts m.content SUMMARY_MARKER = true →
        segmentOut summarizer n [m] = [m]) := by
  refine ⟨?_, ?_, ?_⟩
  · intro h0
    obtain ⟨msgs, api, skip, lc, tc⟩ := st
    simp only at h0
    subst h0
    by_cases htrig : estimateTokensFallback stringifyLen msgs > tokenLimit
        ∨ api > tokenLimit
    · cases msgs with
      | nil =>
        have h1 : summarizeMessagesIfNeeded stringifyLen summarizer tokenLimit
            ⟨[], api, false, lc, tc⟩ = ⟨[], api, false, lc, tc⟩ := by
          simp [summarizeMessagesIfNeeded, htrig]
        rw [h1, h1]
      | cons m0 rest =>
        cases hseg : (segSplit rest).2 with
        | nil =>
          have h1 : summarizeMessagesIfNeeded stringifyLen summarizer tokenLimit
              ⟨m0 :: rest, api, false, lc, tc⟩ = ⟨m0 :: rest, api, false, lc, tc⟩ := by
            simp [summarizeMessagesIfNeeded, htrig, hseg]
          rw [h1, h1]
        | cons seg0 segs =>
          have h1 : summarizeMessagesIfNeeded stringifyLen summarizer tokenLimit
              ⟨m0 :: rest, api, false, lc, tc⟩ =
              ⟨m0 :: joinSegs summarizer 1 (seg0 :: segs), api, true, lc, tc⟩ := by
            simp [summarizeMessagesIfNeeded, htrig, hseg]
          rw [h1]
          simp [summarizeMessagesIfNeeded]
    · have h1 : summarizeMessagesIfNeeded stringifyLen summarizer tokenLimit
          ⟨msgs, api, false, lc, tc⟩ = ⟨msgs, api, false, lc, tc⟩ := by
        simp [summarizeMessagesIfNeeded, htrig]
      rw [h1, h1]
  · intro h
    simp [summarizeMessagesIfNeeded, h]
  · intro m n hrole hstart
    simp [segmentOut, hrole, hstart]

/-- Witness for the amended C5 at a concrete over-budget state with
the flag clear and a concrete summarizer. -/
theorem c5_amended_conditional_idempotence_witness :
    ((summarizeMessagesIfNeeded (fun _ => 0) (fun _ _ => "S") 0
        (summarizeMessagesIfNeeded (fun _ => 0) (fun _ _ => "S") 0
          { c5State with skipNextTokenCheck := false })).messages
      = (summarizeMessagesIfNeeded (fun _ => 0) (fun _ _ => "S") 0
          { c5State with skipNextTokenCheck := false }).messages)
    ∧ segmentOut (fun _ _ => "S") 1 [mkSummaryMsg "S"] = [mkSummaryMsg "S"] := by
  have h := c5_amended_conditional_idempotence (fun _ => 0) (fun _ _ => "S") 0
    { c5State with skipNextTokenCheck := false }
  exact ⟨h.1 rfl, h.2.2 (mkSummaryMsg "S") 1 rfl (by decide)⟩

/-- Counterexample to C5 as stated: from a state whose skipNextCheck
flag is already set while the history is over budget and not yet in
compacted form, the first invocation changes nothing (it only clears
the flag) and the second invocation compacts, so the two invocations
do not produce the same history. -/
theorem c5_counterexample_flag_already_set :
    (summarizeMessagesIfNeeded (fun _ => 0) (fun _ _ => "S") 0
        (summarizeMessagesIfNeeded (fun _ => 0) (fun _ _ => "S") 0 c5State)).messages
      ≠ (summarizeMessagesIfNeeded (fun _ => 0) (fun _ _ => "S") 0 c5State).messages := by
  decide

/-! ## Claim C3 -/

theorem summarize_preserves_counters (stringifyLen : List ToolCall → Nat)
    (summarizer : List Message → Nat → String) (tokenLimit : Nat)
    (st : AgentState) :
    (summarizeMessagesIfNeeded stringifyLen summarizer tokenLimit st).llmCalls
        = st.llmCalls
    ∧ (summarizeMessagesIfNeeded stringifyLen summarizer tokenLimit st).toolMsgCount
        = st.toolMsgCount
    ∧ (summarizeMessagesIfNeeded stringifyLen summarizer tokenLimit st).apiLastTotalTokens
        = st.apiLastTotalTokens := by
  obtain ⟨msgs, api, skip, lc, tc⟩ := st
  unfold summarizeMessagesIfNeeded
  cases skip with
  | true => simp
  | false =>
    by_cases htrig : estimateTokensFallback stringifyLen msgs > tokenLimit
        ∨ api > tokenLimit
    · cases msgs with
      | nil => simp [htrig]
      | cons m0 rest =>
        cases hseg : (segSplit rest).2 with
        | nil => simp [htrig, hseg]
        | cons seg0 segs => simp [htrig, hseg]
    · simp [htrig]

theorem runLoop_budget (env : RunEnv)
    (H : ∀ n, ∃ c, (env.llmAt n).toolCalls = some [c]) :
    ∀ (fuel : Nat) (st : AgentState),
      (runLoop env fuel st).1 = notCompletedText env.maxSteps
      ∧ (runLoop env fuel st).2.llmCalls = st.llmCalls + fuel
      ∧ (runLoop env fuel st).2.toolMsgCount = st.toolMsgCount + fuel := by
  intro fuel
  induction fuel with
  | zero => intro st; simp [runLoop]
  | succ f ih =>
    intro st
    simp only [runLoop]
    generalize hst1 : summarizeMessagesIfNeeded env.stringifyLen env.summarizer
      env.tokenLimit st = st1
    have hcnt := summarize_preserves_counters env.stringifyLen env.summarizer
      env.tokenLimit st
    rw [hst1] at hcnt
    obtain ⟨hc1, hc2, hc3⟩ := hcnt
    obtain ⟨c, hc⟩ := H st1.llmCalls
    simp only [hc]
    rw [processToolCalls_spec]
    refine ⟨(ih _).1, ?_, ?_⟩
    · rw [(ih _).2.1]
      dsimp only
      omega
    · rw [(ih _).2.2]
      dsimp only [List.length_cons, List.length_nil]
      omega

/-- Claim C3: with a backend stub that always requests exactly one
tool call, run performs exactly maxSteps iterations, executing one
tool call per iteration, and then returns the fixed not-completed
terminal string built from maxSteps, distinct from any error. -/
theorem c3_step_budget_exhaustion (env : RunEnv) (st : AgentState)
    (H : ∀ n, ∃ c, (env.llmAt n).toolCalls = some [c]) :
    (run env st).1 = notCompletedText env.maxSteps
    ∧ (run env st).2.llmCalls = st.llmCalls + env.maxSteps
    ∧ (run env st).2.toolMsgCount = st.toolMsgCount + env.maxSteps :=
  runLoop_budget env H env.maxSteps st

/-- Witness for C3: the concrete stub with maxSteps three makes three
backend calls, executes three tool calls and returns the not-completed
text. -/
theorem c3_step_budget_exhaustion_witness :
    (run c3Env c3State).1 = notCompletedText 3
    ∧ (run c3Env c3State).2.llmCalls = 3
    ∧ (run c3Env c3State).2.toolMsgCount = 3 := by
  have h := c3_step_budget_exhaustion c3Env c3State
    (fun n => ⟨⟨"i", "t", ""⟩, rfl⟩)
  simpa [c3Env, c3State] using h

/-! ## Claim C8 -/

/-- Claim C8: for a background job whose process printed the line a,
then the line b, then exited with code 0, the first incremental poll
returns exactly the lines a and b (formatted with the job id trailer),
advancing the cursor to the end of the buffer; a second immediate poll
returns no lines (its stdout section is empty, only the fixed id
trailer remains after trimming); and the job status is completed with
exit code 0. -/
theorem c8_background_job_scenario :
    c8Shell.outputLines = ["a", "b"]
    ∧ c8Shell.status = ShellStatus.completed
    ∧ c8Shell.exitCode = some 0
    ∧ c8Poll1.newLines = ["a", "b"]
    ∧ joinLines c8Poll1.newLines = "a\nb"
    ∧ c8Poll1.content = "a\nb\n[bash_id]:\nabc12345"
    ∧ c8Poll1.shell.lastReadIndex = 2
    ∧ c8Poll2.newLines = []
    ∧ joinLines c8Poll2.newLines = ""
    ∧ c8Poll2.content = "[bash_id]:\nabc12345"
    ∧ c8Poll2.shell.lastReadIndex = 2 := by
  decide

/-! ## Claim C9 -/

/-- Claim C9: for every job and every grace-period outcome, terminate
sends the graceful signal first, waits the fixed 500 ms grace period,
sends the forced signal exactly when the process has not exited by the
end of the grace period, removes the job from the active set, marks it
terminated, and returns the output accumulated since the last poll. -/
theorem c9_terminate_grace_and_flush (shell : BgShell)
    (exitCodeAfterGrace : Option Int) :
    (terminateShell shell exitCodeAfterGrace).acts
        = [KillAct.sigterm, KillAct.waitMs 500]
          ++ (if exitCodeAfterGrace = none then [KillAct.sigkill] else [])
    ∧ (terminateShell shell exitCodeAfterGrace).remaining
        = shell.outputLines.drop shell.lastReadIndex
    ∧ (terminateShell shell exitCodeAfterGrace).removed = true
    ∧ (terminateShell shell exitCodeAfterGrace).shell.status
        = ShellStatus.terminated
    ∧ (terminateShell shell exitCodeAfterGrace).content
        = formatBashOutput
            (joinLines (shell.outputLines.drop shell.lastReadIndex)) ""
            (exitCodeAfterGrace.getD 0) (some shell.bashId) := by
  simp [terminateShell]

/-! ## Claim C10 -/

/-- Claim C10: a poll whose filter string does not compile as a
regular expression succeeds and behaves exactly as an unfiltered poll:
every line since the last poll is returned and the cursor still
advances to the end of the buffer. -/
theorem c10_invalid_filter_ignored
    (compileRegex : String → Option (String → Bool)) (f : String)
    (shell : BgShell) (h : compileRegex f = none) :
    pollNewOutput compileRegex (some f) shell
        = pollNewOutput compileRegex none shell
    ∧ (pollNewOutput compileRegex (some f) shell).newLines
        = shell.outputLines.drop shell.lastReadIndex
    ∧ (pollNewOutput compileRegex (some f) shell).success = true
    ∧ (pollNewOutput compileRegex (some f) shell).shell.lastReadIndex
        = shell.outputLines.length := by
  simp [pollNewOutput, h]

/-- Witness for C10 at a concrete job and a compiler rejecting the
filter string. -/
theorem c10_invalid_filter_ignored_witness :
    (pollNewOutput (fun _ => none) (some "(") c10Shell).newLines = ["q"]
    ∧ (pollNewOutput (fun _ => none) (some "(") c10Shell).success = true
    ∧ (pollNewOutput (fun _ => none) (some "(") c10Shell).shell.lastReadIndex = 2 := by
  have h := c10_invalid_filter_ignored (fun _ => none) "(" c10Shell rfl
  exact ⟨h.2.1.trans (by decide), h.2.2.1, h.2.2.2.trans (by decide)⟩

/-! ## Claim C7 -/

theorem processCallsACP_spec (env : TurnEnv) :
    ∀ (calls : List ToolCall) (st : TurnState),
      (processCallsACP env calls st).callsProcessed
          = st.callsProcessed + calls.length
      ∧ (processCallsACP env calls st).llmCalls = st.llmCalls
      ∧ (processCallsACP env calls st).messages.length
          = st.messages.length + calls.length := by
  intro calls
  induction calls with
  | nil => intro st; simp [processCallsACP]
  | cons c rest ih =>
    intro st
    have h := ih
      { st with
        messages := st.messages ++
          [{ role := .tool, content := acpToolText env.tools c,
             toolCallId := some c.id, name := some c.name }],
        callsProcessed := st.callsProcessed + 1,
        cancelled := st.cancelled || env.cancelDuringCall st.callsProcessed }
    simp only [processCallsACP]
    refine ⟨?_, ?_, ?_⟩
    · rw [h.1]; dsimp only; simp; omega
    · rw [h.2.1]
    · rw [h.2.2]; dsimp only; simp [List.length_append]; omega

/-- Claim C7 (amended): the ACP turn loop checks the cancellation mark
at the top of each iteration — so a session marked cancelled while a
turn is in flight makes the loop return the distinct cancelled status
before issuing another model call — but it performs no check inside a
tool batch: once a batch starts, every requested call in it is
processed (one tool turn appended per call) even if the cancel mark is
set mid-batch. -/
theorem c7_amended_cancellation_between_iterations (env : TurnEnv)
    (st : TurnState) (fuel : Nat) :
    (st.cancelled = true → runTurnLoop env (fuel + 1) st = ("cancelled", st))
    ∧ (∀ calls st2, (processCallsACP env calls st2).callsProcessed
        = st2.callsProcessed + calls.length)
    ∧ (∀ calls st2, (processCallsACP env calls st2).messages.length
        = st2.messages.length + calls.length) := by
  refine ⟨?_, ?_, ?_⟩
  · intro h
    simp [runTurnLoop, h]
  · intro calls st2
    exact (processCallsACP_spec env calls st2).1
  · intro calls st2
    exact (processCallsACP_spec env calls st2).2.2

/-- Witness for the amended C7: a session already marked cancelled
returns the cancelled status untouched, and a concrete two-call batch
is processed in full. -/
theorem c7_amended_cancellation_witness :
    runTurnLoop c7Env 1 { messages := [], cancelled := true }
        = ("cancelled", { messages := [], cancelled := true })
    ∧ (processCallsACP c7Env [⟨"c1", "t", ""⟩, ⟨"c2", "t", ""⟩]
        { messages := [], cancelled := false }).callsProcessed = 0 + 2 := by
  have h := c7_amended_cancellation_between_iterations c7Env
    { messages := [], cancelled := true } 0
  refine ⟨h.1 rfl, ?_⟩
  have h2 := (c7_amended_cancellation_between_iterations c7Env
    { messages := [], cancelled := true } 0).2.1
    [⟨"c1", "t", ""⟩, ⟨"c2", "t", ""⟩] { messages := [], cancelled := false }
  simpa using h2

/-- Counterexample to C7 as stated: in the concrete scenario where the
model requests a batch of two tool calls and a cancel notification is
processed during the handling of the first one, the cancelled mark is
set before the second call starts, yet the second call is still
processed (two tool turns are appended), because the loop only checks
the mark at the next iteration; the claimed check before executing the
next tool in a batch does not exist.  The turn still ends with the
cancelled status and a single model call. -/
theorem c7_counterexample_no_check_inside_batch :
    (processCallsACP c7Env [⟨"c1", "t", ""⟩]
        { messages := [], cancelled := false, llmCalls := 1 }).cancelled = true
    ∧ (runTurn c7Env c7State).1 = "cancelled"
    ∧ (runTurn c7Env c7State).2.callsProcessed = 2
    ∧ (runTurn c7Env c7State).2.llmCalls = 1 := by
  decide

/-! ## Claim C6 -/

theorem drainClient_stuck_none (fuel : Nat) (st : ClientState)
    (h : find4 st.buffer = none) : drainClient fuel st = st := by
  cases fuel with
  | zero => rfl
  | succ f => simp [drainClient, h]

theorem find4_none_of_no13 :
    ∀ (l : List Nat), (∀ b ∈ l, b ≠ 13) → find4 l = none := by
  intro l
  induction l with
  | nil => intro _; rfl
  | cons b tl ih =>
    intro h
    have hb : b ≠ 13 := h b (by simp)
    have htl : find4 tl = none := ih (fun x hx => h x (by simp [hx]))
    simp [find4, hb, htl]

/-- Claim C6 (amended): the duplex connection enforces the inbound
buffer ceiling — a delivery that pushes the accumulated buffer past
MAX_BUFFER_BYTES makes it discard the buffer and report an error —
for every state and chunk. -/
theorem c6_amended_connection_ceiling (st : ConnState) (chunk : List Nat)
    (h : MAX_BUFFER_BYTES < (st.buffer ++ chunk).length) :
    connOnData st chunk
      = { st with buffer := [],
                  errors := st.errors ++ ["JSON-RPC buffer exceeded"] } := by
  simp only [connOnData]
  rw [if_pos h]

/-- Witness for the amended C6: a concrete over-ceiling delivery is
discarded and reported. -/
theorem c6_amended_connection_ceiling_witness :
    connOnData ⟨hugeChunk, [], []⟩ []
      = ⟨[], [], ["JSON-RPC buffer exceeded"]⟩ := by
  have h := c6_amended_connection_ceiling ⟨hugeChunk, [], []⟩ []
    (by simp [hugeChunk])
  simpa using h

/-- Counterexample to C6 as stated: in the client role, the minimal
MCP stdio client enforces no ceiling at all — a single delivery one
byte past the connection ceiling is retained in full in its buffer,
nothing is discarded and no error is reported (its state has no error
channel in the source either). -/
theorem c6_counterexample_client_unbounded :
    MAX_BUFFER_BYTES < (clientOnData ⟨[], []⟩ hugeChunk).buffer.length
    ∧ (clientOnData ⟨[], []⟩ hugeChunk).buffer = hugeChunk
    ∧ (clientOnData ⟨[], []⟩ hugeChunk).received = [] := by
  have hno13 : ∀ b ∈ hugeChunk, b ≠ 13 := by
    intro b hb
    have := List.eq_of_mem_replicate hb
    omega
  have hfind : find4 hugeChunk = none := find4_none_of_no13 _ hno13
  have hclient : clientOnData ⟨[], []⟩ hugeChunk = ⟨hugeChunk, []⟩ := by
    simp only [clientOnData, List.nil_append]
    exact drainClient_stuck_none _ _ hfind
  rw [hclient]
  refine ⟨?_, rfl, rfl⟩
  have hlen : hugeChunk.length = MAX_BUFFER_BYTES + 1 := by
    simp [hugeChunk]
  show MAX_BUFFER_BYTES < hugeChunk.length
  omega

/-! ## Claim C4: byte-level lemmas -/

theorem decBytesAux_eq :
    ∀ (fuel n : Nat), n ≤ fuel →
      decBytesAux fuel n = (Nat.digits 10 n).map (fun d => d + 48) := by
  intro fuel
  induction fuel with
  | zero =>
    intro n hn
    have h0 : n = 0 := by omega
    simp [h0, decBytesAux]
  | succ f ih =>
    intro n hn
    cases n with
    | zero => simp [decBytesAux]
    | succ m =>
      rw [Nat.digits_def' (by norm_num : (1 : Nat) < 10) (Nat.succ_pos m)]
      rw [show decBytesAux (f + 1) (m + 1)
        = ((m + 1) % 10 + 48) :: decBytesAux f ((m + 1) / 10) from rfl]
      rw [ih ((m + 1) / 10)
        (by have := Nat.div_lt_self (Nat.succ_pos m) (by norm_num : 1 < 10); omega)]
      rfl

theorem decBytes_eq (n : Nat) :
    decBytes n = if n = 0 then [48]
      else (Nat.digits 10 n).reverse.map (fun d => d + 48) := by
  unfold decBytes
  by_cases h0 : n = 0
  · simp [h0]
  · rw [if_neg h0, if_neg h0, decBytesAux_eq n n (Nat.le_refl n),
      List.map_reverse]

theorem decBytes_bounds (n : Nat) : ∀ b ∈ decBytes n, 48 ≤ b ∧ b ≤ 57 := by
  intro b hb
  rw [decBytes_eq] at hb
  by_cases h0 : n = 0
  · simp [h0] at hb
    omega
  · simp only [h0, if_false, List.mem_map, List.mem_reverse] at hb
    obtain ⟨d, hd, hdb⟩ := hb
    have := Nat.digits_lt_base (by norm_num) hd
    omega

theorem decBytes_ne_nil (n : Nat) : decBytes n ≠ [] := by
  rw [decBytes_eq]
  by_cases h0 : n = 0
  · simp [h0]
  · simp [h0, Nat.digits_ne_nil_iff_ne_zero.mpr h0]

theorem digitsVal_append_single (l : List Nat) (b : Nat) :
    digitsVal (l ++ [b]) = digitsVal l * 10 + (b - 48) := by
  simp [digitsVal, List.foldl_append]

theorem digitsVal_core (n : Nat) :
    digitsVal ((Nat.digits 10 n).reverse.map (fun d => d + 48)) = n := by
  induction n using Nat.strong_induction_on with
  | _ n ih =>
    by_cases h0 : n = 0
    · subst h0
      simp [digitsVal]
    · rw [Nat.digits_def' (by norm_num : (1 : Nat) < 10) (Nat.pos_of_ne_zero h0)]
      simp only [List.reverse_cons, List.map_append, List.map_cons, List.map_nil]
      rw [digitsVal_append_single]
      rw [ih (n / 10) (Nat.div_lt_self (Nat.pos_of_ne_zero h0) (by norm_num))]
      omega

theorem digitsVal_decBytes (n : Nat) : digitsVal (decBytes n) = n := by
  rw [decBytes_eq]
  by_cases h0 : n = 0
  · simp [h0, digitsVal]
  · simp only [h0, if_false]
    exact digitsVal_core n

theorem frameHeader_no13 (n : Nat) : ∀ b ∈ frameHeader n, b ≠ 13 := by
  intro b hb
  unfold frameHeader at hb
  rcases List.mem_append.mp hb with h1 | h2
  · rcases List.mem_append.mp h1 with h3 | h4
    · have hcl : ∀ x ∈ clHeadBytes, x ≠ 13 := by decide
      exact hcl b h3
    · simp at h4
      omega
  · have := decBytes_bounds n b h2
    omega

theorem find4_wellformed (h : List Nat) (rest : List Nat)
    (hno : ∀ b ∈ h, b ≠ 13) :
    find4 (h ++ 13 :: 10 :: 13 :: 10 :: rest) = some h.length := by
  induction h with
  | nil => simp [find4]
  | cons a tl ih =>
    have ha : a ≠ 13 := hno a (by simp)
    have ih2 := ih (fun x hx => hno x (by simp [hx]))
    simp [find4, ha, ih2]

theorem find4_bound :
    ∀ (l : List Nat) (i : Nat), find4 l = some i → i + 4 ≤ l.length := by
  intro l
  induction l with
  | nil => intro i h; simp [find4] at h
  | cons b tl ih =>
    intro i h
    by_cases hcond : b = 13 ∧ tl.take 3 = [10, 13, 10]
    · rw [find4, if_pos hcond] at h
      have h0 : i = 0 := by simpa using h.symm
      have h3 : (tl.take 3).length = 3 := by rw [hcond.2]; rfl
      rw [List.length_take] at h3
      simp only [h0, List.length_cons]
      omega
    · rw [find4, if_neg hcond] at h
      obtain ⟨j, hj, hij⟩ := Option.map_eq_some'.mp h
      have := ih j hj
      simp only [List.length_cons]
      omega

theorem find4_at :
    ∀ (l : List Nat) (i : Nat), find4 l = some i → l[i]? = some 13 := by
  intro l
  induction l with
  | nil => intro i h; simp [find4] at h
  | cons b tl ih =>
    intro i h
    by_cases hcond : b = 13 ∧ tl.take 3 = [10, 13, 10]
    · rw [find4, if_pos hcond] at h
      have h0 : i = 0 := by simpa using h.symm
      simp [h0, hcond.1]
    · rw [find4, if_neg hcond] at h
      obtain ⟨j, hj, hij⟩ := Option.map_eq_some'.mp h
      have := ih j hj
      simp only [← hij, List.getElem?_cons_succ]
      exact this

theorem isSpaceB_digit (b : Nat) (h : 48 ≤ b ∧ b ≤ 57) : isSpaceB b = false := by
  simp only [isSpaceB, Bool.or_eq_false_iff, beq_eq_false_iff_ne]
  omega

theorem isDigitB_digit (b : Nat) (h : 48 ≤ b ∧ b ≤ 57) : isDigitB b = true := by
  simp only [isDigitB, Bool.and_eq_true, decide_eq_true_eq]
  omega

theorem dropWhile_eq_self_of_false {p : Nat → Bool} {l : List Nat}
    (h : ∀ b ∈ l, p b = false) : l.dropWhile p = l := by
  cases l with
  | nil => rfl
  | cons a t =>
    rw [List.dropWhile_cons, if_neg]
    simp [h a (by simp)]

theorem findCL_frameHeader (n : Nat) : findCL (frameHeader n) = some n := by
  have hdigits := decBytes_bounds n
  have hcons : frameHeader n =
      67 :: 111 :: 110 :: 116 :: 101 :: 110 :: 116 :: 45 :: 76 :: 101 :: 110 ::
      103 :: 116 :: 104 :: 58 :: 32 :: decBytes n := by
    simp [frameHeader, clHeadBytes]
  rw [hcons, findCL]
  have htake : ((67 :: 111 :: 110 :: 116 :: 101 :: 110 :: 116 :: 45 :: 76 :: 101 :: 110 ::
      103 :: 116 :: 104 :: 58 :: 32 :: decBytes n).take 15).map toLowerB
      = clPatBytes := by
    simp [List.take_succ_cons, toLowerB, clPatBytes]
  rw [if_pos htake]
  have hdropw : (decBytes n).dropWhile isSpaceB = decBytes n :=
    dropWhile_eq_self_of_false (fun b hb => isSpaceB_digit b (hdigits b hb))
  have hdrop : (67 :: 111 :: 110 :: 116 :: 101 :: 110 :: 116 :: 45 :: 76 :: 101 :: 110 ::
      103 :: 116 :: 104 :: 58 :: 32 :: decBytes n).drop 15 = 32 :: decBytes n := rfl
  rw [hdrop]
  have hdw : (32 :: decBytes n).dropWhile isSpaceB = decBytes n := by
    rw [List.dropWhile_cons, if_pos (by simp [isSpaceB])]
    exact hdropw
  rw [hdw]
  have htw : (decBytes n).takeWhile isDigitB = decBytes n :=
    List.takeWhile_eq_self_iff.mpr (fun b hb => isDigitB_digit b (hdigits b hb))
  rw [htw, if_neg (decBytes_ne_nil n), digitsVal_decBytes]

/-! ## Claim C4: drain-loop lemmas -/

theorem drop_header (h t : List Nat) :
    (h ++ 13 :: 10 :: 13 :: 10 :: t).drop (h.length + 4) = t := by
  induction h with
  | nil => simp
  | cons a tl ih =>
    simp only [List.length_cons, Nat.add_right_comm, List.cons_append,
      List.drop_succ_cons]
    exact ih

theorem body_slice (h b rest : List Nat) :
    ((h ++ 13 :: 10 :: 13 :: 10 :: (b ++ rest)).drop (h.length + 4)).take b.length
      = b := by
  rw [drop_header]
  exact List.take_left b rest

theorem drop_frame (h b rest : List Nat) :
    (h ++ 13 :: 10 :: 13 :: 10 :: (b ++ rest)).drop (h.length + 4 + b.length)
      = rest := by
  have hassoc : h ++ 13 :: 10 :: 13 :: 10 :: (b ++ rest)
      = (h ++ 13 :: 10 :: 13 :: 10 :: b) ++ rest := by
    simp
  have hlen : (h ++ 13 :: 10 :: 13 :: 10 :: b).length = h.length + 4 + b.length := by
    simp only [List.length_append, List.length_cons]
    omega
  rw [hassoc, ← hlen]
  exact List.drop_left _ _

theorem take_append_le (l₁ l₂ : List Nat) (n : Nat) (h : n ≤ l₁.length) :
    (l₁ ++ l₂).take n = l₁.take n := by
  rw [List.take_append_eq_append_take, Nat.sub_eq_zero_of_le h, List.take_zero,
    List.append_nil]

theorem take_cons4 (m : Nat) (b : List Nat) :
    (13 :: 10 :: 13 :: 10 :: b).take (m + 4)
      = 13 :: 10 :: 13 :: 10 :: b.take m := by
  have h : m + 4 = m + 1 + 1 + 1 + 1 := by omega
  rw [h]
  simp [List.take_succ_cons]

/-- Extracting one complete frame from the front of the buffer: one
loop iteration consumes it and appends its payload to the received
list. -/
theorem drainConn_frame (b rest : List Nat) (r : List (List Nat))
    (e : List String) (hb : b.length ≤ MAX_CONTENT_LENGTH_BYTES) (fuel : Nat) :
    drainConn (fuel + 1) ⟨encodeFrame b ++ rest, r, e⟩
      = drainConn fuel ⟨rest, r ++ [b], e⟩ := by
  have hbuf : encodeFrame b ++ rest
      = frameHeader b.length ++ 13 :: 10 :: 13 :: 10 :: (b ++ rest) := by
    simp [encodeFrame, List.append_assoc]
  have hfind : find4 (frameHeader b.length ++ 13 :: 10 :: 13 :: 10 :: (b ++ rest))
      = some (frameHeader b.length).length :=
    find4_wellformed _ _ (frameHeader_no13 _)
  rw [hbuf]
  simp only [drainConn, hfind, List.take_left, findCL_frameHeader]
  rw [if_neg (by omega : ¬ b.length > MAX_CONTENT_LENGTH_BYTES)]
  rw [if_neg ?hlen]
  case hlen =>
    simp only [List.length_append, List.length_cons]
    omega
  rw [body_slice, drop_frame]

/-- A buffer in which no header terminator occurs makes the drain loop
a no-op. -/
theorem drainConn_stuck_none (fuel : Nat) (st : ConnState)
    (h : find4 st.buffer = none) : drainConn fuel st = st := by
  cases fuel with
  | zero => rfl
  | succ f => simp [drainConn, h]

/-- A proper front part of a single encoded frame makes the drain loop
a no-op: either the header terminator is not yet complete, or the body
is still short of the announced length. -/
theorem drainConn_stuck_take (b : List Nat) (k : Nat)
    (hb : b.length ≤ MAX_CONTENT_LENGTH_BYTES)
    (hk : k < (encodeFrame b).length) (fuel : Nat) (r : List (List Nat))
    (e : List String) :
    drainConn fuel ⟨(encodeFrame b).take k, r, e⟩
      = ⟨(encodeFrame b).take k, r, e⟩ := by
  have hlen : (encodeFrame b).length
      = (frameHeader b.length).length + 4 + b.length := by
    simp only [encodeFrame, List.length_append, List.length_cons]
    omega
  by_cases hk2 : k ≤ (frameHeader b.length).length + 3
  · -- the CRLFCRLF separator is not fully present yet
    apply drainConn_stuck_none
    rcases hf : find4 ((encodeFrame b).take k) with _ | i
    · rfl
    · exfalso
      have hbound := find4_bound _ _ hf
      have hat := find4_at _ _ hf
      have hkl : ((encodeFrame b).take k).length ≤ k := by
        rw [List.length_take]; omega
      have hiH : i < (frameHeader b.length).length := by omega
      have hik : i < k := by omega
      rw [List.getElem?_take_of_lt hik] at hat
      have henc : (encodeFrame b)[i]? = (frameHeader b.length)[i]? := by
        simp only [encodeFrame]
        exact List.getElem?_append_left hiH
      rw [henc] at hat
      exact frameHeader_no13 b.length 13 (List.getElem?_mem hat) rfl
  · -- full header present, body still incomplete
    have hm : ∃ m, k = (frameHeader b.length).length + 4 + m ∧ m < b.length :=
      ⟨k - (frameHeader b.length).length - 4, by omega, by omega⟩
    obtain ⟨m, hkm, hmb⟩ := hm
    have htake : (encodeFrame b).take k
        = frameHeader b.length ++ 13 :: 10 :: 13 :: 10 :: b.take m := by
      rw [hkm]
      simp only [encodeFrame]
      rw [List.take_append_eq_append_take,
        List.take_of_length_le (by omega : (frameHeader b.length).length
          ≤ (frameHeader b.length).length + 4 + m)]
      have h2 : (frameHeader b.length).length + 4 + m
          - (frameHeader b.length).length = m + 4 := by omega
      rw [h2, take_cons4]
    rw [htake]
    cases fuel with
    | zero => rfl
    | succ f =>
      have hfind : find4 (frameHeader b.length ++ 13 :: 10 :: 13 :: 10 :: b.take m)
          = some (frameHeader b.length).length :=
        find4_wellformed _ _ (frameHeader_no13 _)
      simp only [drainConn, hfind, List.take_left, findCL_frameHeader]
      rw [if_neg (by omega : ¬ b.length > MAX_CONTENT_LENGTH_BYTES)]
      rw [if_pos ?hshort]
      case hshort =>
        simp only [List.length_append, List.length_cons, List.length_take]
        omega

/-! ## Claim C4: stream lemmas -/

theorem frameStream_nil : frameStream [] = [] := rfl

theorem frameStream_cons (b : List Nat) (bs : List (List Nat)) :
    frameStream (b :: bs) = encodeFrame b ++ frameStream bs := by
  simp [frameStream]

theorem frameStream_append (xs ys : List (List Nat)) :
    frameStream (xs ++ ys) = frameStream xs ++ frameStream ys := by
  simp [frameStream]

theorem encodeFrame_length_pos (b : List Nat) : 0 < (encodeFrame b).length := by
  simp [encodeFrame, frameHeader, clHeadBytes]

theorem count_le_frameStream_length (bs : List (List Nat)) :
    bs.length ≤ (frameStream bs).length := by
  induction bs with
  | nil => simp [frameStream_nil]
  | cons b tl ih =>
    rw [frameStream_cons]
    simp only [List.length_cons, List.length_append]
    have := encodeFrame_length_pos b
    omega

theorem frameStream_eq_nil (ms : List (List Nat)) (h : frameStream ms = []) :
    ms = [] := by
  cases ms with
  | nil => rfl
  | cons m tl =>
    rw [frameStream_cons] at h
    have h2 := List.append_eq_nil.mp h
    have := encodeFrame_length_pos m
    rw [h2.1] at this
    simp at this

/-- Draining a buffer that is a whole stream of frames followed by a
stuck remainder receives exactly the stream payloads. -/
theorem drainConn_stream (bs : List (List Nat))
    (hok : ∀ b ∈ bs, b.length ≤ MAX_CONTENT_LENGTH_BYTES)
    (q : List Nat)
    (hq : ∀ fuel r e, drainConn fuel ⟨q, r, e⟩ = ⟨q, r, e⟩) :
    ∀ (fuel : Nat), bs.length ≤ fuel → ∀ (r : List (List Nat)) (e : List String),
      drainConn fuel ⟨frameStream bs ++ q, r, e⟩ = ⟨q, r ++ bs, e⟩ := by
  induction bs with
  | nil =>
    intro fuel _ r e
    rw [frameStream_nil, List.nil_append, hq fuel r e]
    simp
  | cons b tl ih =>
    intro fuel hfuel r e
    cases fuel with
    | zero => simp at hfuel
    | succ f =>
      rw [frameStream_cons, List.append_assoc,
        drainConn_frame b _ r e (hok b (by simp)) f]
      rw [ih (fun x hx => hok x (by simp [hx])) f
        (by simp at hfuel; omega) (r ++ [b]) e]
      simp

/-! ## Claim C4: the chunk-feed invariant -/

theorem frameStuck_nil (ms : List (List Nat)) : FrameStuck [] ms := Or.inl rfl

theorem frameStuck_drain (q : List Nat) (ms : List (List Nat))
    (hstuck : FrameStuck q ms)
    (hok : ∀ b ∈ ms, b.length ≤ MAX_CONTENT_LENGTH_BYTES) :
    ∀ fuel r e, drainConn fuel ⟨q, r, e⟩ = ⟨q, r, e⟩ := by
  rcases hstuck with hq | ⟨m, tl, k, hms, hk, hq⟩
  · intro fuel r e
    subst hq
    exact drainConn_stuck_none fuel _ rfl
  · intro fuel r e
    subst hq
    exact drainConn_stuck_take m k (hok m (by simp [hms])) hk fuel r e

theorem frameStuck_forces (q : List Nat) (ms : List (List Nat))
    (hstuck : FrameStuck q ms) (heq : q = frameStream ms) :
    q = [] ∧ ms = [] := by
  rcases hstuck with hq | ⟨m, tl, k, hms, hk, hq⟩
  · exact ⟨hq, frameStream_eq_nil ms (by rw [← heq, hq])⟩
  · exfalso
    subst hms
    rw [frameStream_cons] at heq
    have h1 : q.length ≤ k := by
      rw [hq, List.length_take]
      omega
    have h2 : (encodeFrame m).length ≤ q.length := by
      rw [heq]
      simp [List.length_append]
    omega

theorem take_length_self (l : List Nat) : l.take l.length = l :=
  List.take_of_length_le (Nat.le_refl _)

/-- Every front part of a frame stream splits as a run of whole frames
followed by a stuck remainder. -/
theorem stream_split (ms : List (List Nat)) :
    ∀ (P t : List Nat), P ++ t = frameStream ms →
      ∃ mid ms2 q, ms = mid ++ ms2 ∧ P = frameStream mid ++ q
        ∧ FrameStuck q ms2 := by
  induction ms with
  | nil =>
    intro P t h
    rw [frameStream_nil] at h
    have hP := (List.append_eq_nil.mp h).1
    exact ⟨[], [], [], rfl, by simp [frameStream_nil, hP], frameStuck_nil []⟩
  | cons m tl ih =>
    intro P t h
    rw [frameStream_cons] at h
    by_cases hle : (encodeFrame m).length ≤ P.length
    · have htake : P.take (encodeFrame m).length = encodeFrame m := by
        have h1 : (P ++ t).take (encodeFrame m).length = encodeFrame m := by
          rw [h]
          exact List.take_left _ _
        rw [take_append_le P t _ hle] at h1
        exact h1
      have hP : P = encodeFrame m ++ P.drop (encodeFrame m).length := by
        conv_lhs => rw [← List.take_append_drop (encodeFrame m).length P]
        rw [htake]
      have hP2 : P.drop (encodeFrame m).length ++ t = frameStream tl := by
        have h2 : encodeFrame m ++ (P.drop (encodeFrame m).length ++ t)
            = encodeFrame m ++ frameStream tl := by
          rw [← List.append_assoc, ← hP, h]
        exact List.append_cancel_left h2
      obtain ⟨mid, ms2, q, h1, h2, h3⟩ := ih (P.drop (encodeFrame m).length) t hP2
      refine ⟨m :: mid, ms2, q, by rw [List.cons_append, h1], ?_, h3⟩
      rw [frameStream_cons, List.append_assoc, ← h2]
      exact hP
    · push_neg at hle
      have hPtake : P = (encodeFrame m).take P.length := by
        have h1 : (P ++ t).take P.length = P := by
          rw [take_append_le P t _ (Nat.le_refl _)]
          exact take_length_self P
        rw [h] at h1
        rw [take_append_le _ _ _ (Nat.le_of_lt hle)] at h1
        exact h1.symm
      exact ⟨[], m :: tl, P, rfl, by rw [frameStream_nil, List.nil_append],
        Or.inr ⟨m, tl, P.length, rfl, hle, hPtake⟩⟩

/-- The chunk-feed invariant: feeding any chunk sequence whose joined
bytes complete a frame stream, on top of a stuck leftover buffer,
receives exactly the stream payloads and ends with an empty buffer,
the received payloads in order, and no errors. -/
theorem connFeed_aux :
    ∀ (chunks : List (List Nat)) (ms : List (List Nat)) (q : List Nat)
      (r : List (List Nat)) (e : List String),
      (∀ b ∈ ms, b.length ≤ MAX_CONTENT_LENGTH_BYTES) →
      FrameStuck q ms →
      q ++ chunks.flatten = frameStream ms →
      (frameStream ms).length ≤ MAX_BUFFER_BYTES →
      connFeed ⟨q, r, e⟩ chunks = ⟨[], r ++ ms, e⟩ := by
  intro chunks
  induction chunks with
  | nil =>
    intro ms q r e hok hstuck heq hbuf
    rw [List.flatten_nil, List.append_nil] at heq
    obtain ⟨hq, hms⟩ := frameStuck_forces q ms hstuck heq
    subst hq
    subst hms
    simp [connFeed]
  | cons c rest ih =>
    intro ms q r e hok hstuck heq hbuf
    rw [List.flatten_cons, ← List.append_assoc] at heq
    obtain ⟨mid, ms2, q2, hms, hqc, hstuck2⟩ :=
      stream_split ms (q ++ c) rest.flatten heq
    have hmsflat : frameStream ms = frameStream mid ++ frameStream ms2 := by
      rw [hms, frameStream_append]
    have hlenqc : (q ++ c).length ≤ MAX_BUFFER_BYTES := by
      have h1 : ((q ++ c) ++ rest.flatten).length = (frameStream ms).length := by
        rw [heq]
      rw [List.length_append] at h1
      omega
    have hok2 : ∀ b ∈ ms2, b.length ≤ MAX_CONTENT_LENGTH_BYTES := by
      intro b hb
      exact hok b (by rw [hms]; exact List.mem_append.mpr (Or.inr hb))
    have hokmid : ∀ b ∈ mid, b.length ≤ MAX_CONTENT_LENGTH_BYTES := by
      intro b hb
      exact hok b (by rw [hms]; exact List.mem_append.mpr (Or.inl hb))
    have hstep : connOnData ⟨q, r, e⟩ c = ⟨q2, r ++ mid, e⟩ := by
      simp only [connOnData]
      rw [if_neg (by omega : ¬ (q ++ c).length > MAX_BUFFER_BYTES)]
      rw [hqc]
      have hfuel : mid.length ≤ (frameStream mid ++ q2).length + 1 := by
        have := count_le_frameStream_length mid
        rw [List.length_append]
        omega
      exact drainConn_stream mid hokmid q2
        (frameStuck_drain q2 ms2 hstuck2 hok2) _ hfuel r e
    have hfold : connFeed ⟨q, r, e⟩ (c :: rest)
        = connFeed (connOnData ⟨q, r, e⟩ c) rest := rfl
    rw [hfold, hstep]
    have heq2 : q2 ++ rest.flatten = frameStream ms2 := by
      have h3 : frameStream mid ++ (q2 ++ rest.flatten)
          = frameStream mid ++ frameStream ms2 := by
        rw [← List.append_assoc, ← hqc, heq, hmsflat]
      exact List.append_cancel_left h3
    have hbuf2 : (frameStream ms2).length ≤ MAX_BUFFER_BYTES := by
      have h4 : (frameStream ms).length
          = (frameStream mid).length + (frameStream ms2).length := by
        rw [hmsflat, List.length_append]
      omega
    rw [ih ms2 q2 (r ++ mid) e hok2 hstuck2 heq2 hbuf2, hms]
    simp [List.append_assoc]

/-- Claim C4: encoding any sequence of messages into Content-Length
frames and feeding the byte stream to the connection parser, under any
partition of the stream into delivery chunks (splitting headers or
bodies, or packing several frames into one chunk), yields exactly the
original messages, in order, with an empty final buffer and no errors
— provided each payload fits the per-frame ceiling and the stream fits
the buffer ceiling. -/
theorem c4_framing_roundtrip (μ : Type) (ser : μ → List Nat)
    (deser : List Nat → Option μ)
    (hcodec : ∀ m, deser (ser m) = some m)
    (msgs : List μ) (chunks : List (List Nat))
    (hsize : ∀ m ∈ msgs, (ser m).length ≤ MAX_CONTENT_LENGTH_BYTES)
    (hchunks : chunks.flatten = frameStream (msgs.map ser))
    (htotal : (frameStream (msgs.map ser)).length ≤ MAX_BUFFER_BYTES) :
    (connFeed ⟨[], [], []⟩ chunks).received.map deser = msgs.map some
    ∧ (connFeed ⟨[], [], []⟩ chunks).received = msgs.map ser
    ∧ (connFeed ⟨[], [], []⟩ chunks).buffer = []
    ∧ (connFeed ⟨[], [], []⟩ chunks).errors = [] := by
  have hok : ∀ b ∈ msgs.map ser, b.length ≤ MAX_CONTENT_LENGTH_BYTES := by
    intro b hb
    obtain ⟨m, hm, rfl⟩ := List.mem_map.mp hb
    exact hsize m hm
  have h := connFeed_aux chunks (msgs.map ser) [] [] [] hok (frameStuck_nil _)
    (by rw [List.nil_append]; exact hchunks) htotal
  rw [h]
  refine ⟨?_, by simp, rfl, rfl⟩
  simp only [List.nil_append, List.map_map]
  simp [Function.comp, hcodec]

/-- Witness for C4: two one-byte messages, with the stream delivered
in two chunks split inside the first header, are received exactly. -/
theorem c4_framing_roundtrip_witness :
    (connFeed ⟨[], [], []⟩ c4Chunks).received.map c4Deser = c4Msgs.map some
    ∧ (connFeed ⟨[], [], []⟩ c4Chunks).buffer = []
    ∧ (connFeed ⟨[], [], []⟩ c4Chunks).errors = [] := by
  have h := c4_framing_roundtrip Nat c4Ser c4Deser (fun m => rfl) c4Msgs c4Chunks
    (by decide) (by decide) (by decide)
  exact ⟨h.1, h.2.2.1, h.2.2.2⟩

end MiniAgent
